import Mathlib

/-!
Verification of the AI-Assistant-Coach training-plan parser

Shallow embedding of the plan-parsing core of the repository:

* `app/services/ml_plan_parser.py`   (`MLPlanParser`)
* `app/services/plan_parser_service.py` (`PlanParserService`)

Conventions of the embedding:

* Python floats are modelled as `ℚ`.  Python's `round(x, 2)` is modelled as
  round-half-to-even on the exact rational value (`pyRound2`); the binary
  floating-point representation noise that can flip an exact tie is not
  modelled, and no theorem below depends on a tie.
* Python dicts that the code reads with `.get(...)` are modelled as
  structures with `Option` fields; `.get(k, d)` becomes `Option.getD`.
* `re.search`/`re.findall` calls are embedded as dedicated scanners that
  reproduce the semantics of the concrete patterns appearing in the source
  (leftmost match, greedy `\d+`, optional fraction, `\s*`, literal tail).
* Dates are modelled as integer day numbers; `timedelta(weeks = w)` is
  `7 * w` days.
-/

namespace AICoach

/-! ## Character-level primitives (Python `re` building blocks) -/

/-- The `\d` of Python `re`: an ASCII decimal digit. -/
def isDigitC (c : Char) : Bool := '0' ≤ c && c ≤ '9'

/-- The `\s` of Python `re` on ASCII text: space, tab, newline, CR, FF, VT. -/
def isSpaceC (c : Char) : Bool :=
  c = ' ' || c = '\t' || c = '\n' || c = '\x0d' || c = '\x0b' || c = '\x0c'

/-- Numeric value of an ASCII digit. -/
def digitVal (c : Char) : ℕ := c.toNat - 48

/-- Value of a digit string read in base 10. -/
def natOfDigits (ds : List Char) : ℕ :=
  ds.foldl (fun a c => 10 * a + digitVal c) 0

/-- Value of `ds . fs` as a rational (integer part and fractional digits). -/
def numVal (ds fs : List Char) : ℚ :=
  (natOfDigits ds : ℚ) + (natOfDigits fs : ℚ) / (10 : ℚ) ^ fs.length

/-- Case-insensitive literal match at the head of the text
(`re.IGNORECASE` comparison of a pattern literal). -/
def litMatchCI : List Char → List Char → Bool
  | [], _ => true
  | _ :: _, [] => false
  | l :: ls, c :: cs => (c.toLower = l.toLower) && litMatchCI ls cs

/-- Round half to even (the semantics of Python's builtin `round` on the
exact value). -/
def roundHalfEven (x : ℚ) : ℤ :=
  let f := ⌊x⌋
  let r := x - (f : ℚ)
  if r < 1/2 then f
  else if 1/2 < r then f + 1
  else if f % 2 = 0 then f else f + 1

/-- Python `round(x, 2)` on the exact rational value. -/
def pyRound2 (x : ℚ) : ℚ := (roundHalfEven (x * 100) : ℚ) / 100

/-- Attempt, at the current position, the pattern
`(\d+(?:\.\d+)?)\s*LIT` (with `re.IGNORECASE`): one or more digits, an
optional fractional part, optional whitespace, then the literal `lit`.
Returns the numeric value of group 1.  Faithful to Python's backtracking
for every literal that does not begin with a digit, a dot or whitespace
(true of all literals used by the source: `mile`, `km`, `m`): shortening
the greedy `\d+`/`\.\d+` parts can never turn a failure into a success,
and dropping the matched fractional group leaves the literal to match at
the `'.'`, which such a literal cannot. -/
def matchNumLit (lit : List Char) (cs : List Char) : Option ℚ :=
  let ds := cs.takeWhile isDigitC
  let rest := cs.dropWhile isDigitC
  if ds = [] then none
  else
    match rest with
    | '.' :: rest2 =>
      let fs := rest2.takeWhile isDigitC
      let rest3 := rest2.dropWhile isDigitC
      if fs = [] then
        -- `(?:\.\d+)?` cannot match; `\s*` matches nothing at `'.'`
        if litMatchCI lit ('.' :: rest2) then some ((natOfDigits ds : ℚ)) else none
      else
        if litMatchCI lit (rest3.dropWhile isSpaceC) then some (numVal ds fs)
        else
          -- backtrack: drop the fractional group, literal must match at `'.'`
          if litMatchCI lit ('.' :: rest2) then some ((natOfDigits ds : ℚ)) else none
    | _ => if litMatchCI lit (rest.dropWhile isSpaceC) then some ((natOfDigits ds : ℚ)) else none

/-- The `re.search` of `(\d+(?:\.\d+)?)\s*LIT`: try the pattern at each
position, leftmost first; return group 1's value. -/
def searchNumLit (lit : List Char) : List Char → Option ℚ
  | [] => none
  | c :: cs =>
    match matchNumLit lit (c :: cs) with
    | some q => some q
    | none => searchNumLit lit cs

/-! ## `MLPlanParser.workout_patterns` and `_extract_distance` -/

/-- One entry of `MLPlanParser.workout_patterns`: keyword list and
canonical `distance_range` (the `intensity` field is never read by the
functions under verification and is omitted). -/
structure WorkoutPattern where
  keywords : List String
  rangeLo : ℚ
  rangeHi : ℚ
  deriving Repr, DecidableEq

/-- The `workout_patterns` table of `MLPlanParser.__init__`, in
declaration order. -/
def workout_patterns : List (String × WorkoutPattern) :=
  [ ("easy_run", ⟨["easy", "recovery", "steady", "conversational"], 3, 10⟩),
    ("intervals", ⟨["intervals", "repeats", "sprints", "fartlek"], 1/5, 2⟩),
    ("long_run", ⟨["long", "endurance", "distance"], 10, 30⟩) ]

/-- Python `str.lower()` (character-wise, as for the ASCII strings the
source manipulates). -/
def pyLower (s : String) : String := String.mk (s.data.map Char.toLower)

/-- The `workout_type.lower().replace(' ', '_')`, the key normalisation used
inside `_extract_distance` and `_calculate_workout_confidence` (the
replaced pattern is the single character `' '`, so the replacement is a
character map). -/
def normKey (s : String) : String :=
  String.mk ((pyLower s).data.map (fun c => if c = ' ' then '_' else c))

/-- The `MLPlanParser._extract_distance`.  Tries, in order, the three regex
patterns `(\d+(?:\.\d+)?)\s*miles?`, `...\s*km`, `...\s*m` (all
`re.IGNORECASE`) over the workout text; the first match is converted
(`miles` pattern: × 1.60934; bare `m` pattern: ÷ 1000) and rounded to two
decimals.  If none matches, the fallback guard tests
`workout_type in self.workout_patterns` — the *unnormalised* type string
against the snake_case keys — and only then reads the table at the
normalised key, returning the `np.mean` of its `distance_range`. -/
def extract_distance (workout_text : String) (workout_type : String) : Option ℚ :=
  let cs := workout_text.data
  match searchNumLit "mile".data cs with
  | some q => some (pyRound2 (q * (160934/100000 : ℚ)))
  | none =>
  match searchNumLit "km".data cs with
  | some q => some (pyRound2 q)
  | none =>
  match searchNumLit "m".data cs with
  | some q => some (pyRound2 (q / 1000))
  | none =>
    if (workout_patterns.lookup workout_type).isSome then
      (workout_patterns.lookup (normKey workout_type)).map
        (fun p => (p.rangeLo + p.rangeHi) / 2)
    else none

/-- The `roundHalfEven` at an exact integer. -/
theorem roundHalfEven_intCast (n : ℤ) : roundHalfEven (n : ℚ) = n := by
  simp [roundHalfEven, Int.floor_intCast]

/-- The `roundHalfEven` when the value sits strictly below the half point. -/
theorem roundHalfEven_eval_lt (x : ℚ) (n : ℤ) (h1 : (n : ℚ) ≤ x) (h2 : x < n + 1/2) :
    roundHalfEven x = n := by
  have hf : ⌊x⌋ = n := by
    rw [Int.floor_eq_iff]
    constructor
    · exact h1
    · calc x < n + 1/2 := h2
        _ < n + 1 := by norm_num
  simp only [roundHalfEven, hf]
  rw [if_pos]
  linarith

/-- The `roundHalfEven` when the value sits strictly above the half point. -/
theorem roundHalfEven_eval_gt (x : ℚ) (n : ℤ) (h1 : (n : ℚ) + 1/2 < x) (h2 : x < n + 1) :
    roundHalfEven x = n + 1 := by
  have hf : ⌊x⌋ = n := by
    rw [Int.floor_eq_iff]
    constructor
    · calc (n : ℚ) ≤ n + 1/2 := by norm_num
        _ ≤ x := le_of_lt h1
    · exact_mod_cast h2
  simp only [roundHalfEven, hf]
  rw [if_neg (by linarith), if_pos (by linarith)]

example : extract_distance "Monday easy jog" "Easy Run" = none := by decide
example : extract_distance "6 x 800 + 4 x 400" "Intervals" = none := by decide

example : extract_distance "6 x 800m" "Intervals" = some (4/5) := by
  have h1 : searchNumLit "mile".data "6 x 800m".data = none := by decide
  have h2 : searchNumLit "km".data "6 x 800m".data = none := by decide
  have h3 : searchNumLit "m".data "6 x 800m".data = some 800 := by decide
  simp only [extract_distance, h1, h2, h3, pyRound2]
  rw [show ((800 : ℚ) / 1000 * 100) = ((80 : ℤ) : ℚ) by norm_num, roundHalfEven_intCast]
  norm_num

example : extract_distance "4m easy" "Easy Run" = some 0 := by
  have h1 : searchNumLit "mile".data "4m easy".data = none := by decide
  have h2 : searchNumLit "km".data "4m easy".data = none := by decide
  have h3 : searchNumLit "m".data "4m easy".data = some 4 := by decide
  simp only [extract_distance, h1, h2, h3, pyRound2]
  rw [roundHalfEven_eval_lt ((4 : ℚ)/1000 * 100) 0 (by norm_num) (by norm_num)]
  norm_num

example : extract_distance "5 miles easy" "Easy Run" = some (161/20) := by
  have h1 : searchNumLit "mile".data "5 miles easy".data = some 5 := by decide
  simp only [extract_distance, h1, pyRound2]
  rw [roundHalfEven_eval_gt ((5 : ℚ) * (160934/100000) * 100) 804 (by norm_num) (by norm_num)]
  norm_num

example : extract_distance "tempo work" "intervals" = some (11/10) := by
  have h1 : searchNumLit "mile".data "tempo work".data = none := by decide
  have h2 : searchNumLit "km".data "tempo work".data = none := by decide
  have h3 : searchNumLit "m".data "tempo work".data = none := by decide
  have h4 : normKey "intervals" = "intervals" := by decide
  have h5 : workout_patterns.lookup "intervals"
      = some ⟨["intervals", "repeats", "sprints", "fartlek"], 1/5, 2⟩ := rfl
  simp only [extract_distance, h1, h2, h3, h4, h5]
  norm_num

/-! ## Data model consumed by `PlanParserService.save_parsed_plan`

The plan dict handed to `save_parsed_plan` is read exclusively through
`.get(...)`; absent keys are modelled by `none`. -/

/-- The `WorkoutType` enum of `app/models/training.py`. -/
inductive WorkoutType where
  | easy_run | long_run | tempo | intervals | hills | recovery | race | cross_training | rest
  deriving Repr, DecidableEq

/-- One entry of a week's `workouts` list as read by `save_parsed_plan`. -/
structure SWorkout where
  day : Option String
  workout_type : Option String
  description : Option String
  distance : Option ℚ
  deriving Repr, DecidableEq

/-- One entry of `weekly_structure` as read by `save_parsed_plan`. -/
structure SWeek where
  week_number : Option ℤ
  workouts : List SWorkout
  deriving Repr, DecidableEq

/-- The plan dict as read by `save_parsed_plan` (`title`,
`weekly_structure`). -/
structure SPlan where
  title : Option String
  weekly_structure : List SWeek
  deriving Repr, DecidableEq

/-- A persisted `Training` row, restricted to the fields
`save_parsed_plan` fills.  `date` is an integer day number. -/
structure Training where
  user_id : ℕ
  date : ℤ
  type : WorkoutType
  title : String
  description : String
  distance : Option ℚ
  plan_source : String
  plan_title : String
  deriving Repr, DecidableEq

/-- The day-name table of `PlanParserService._get_day_offset`. -/
def days_table : List (String × ℤ) :=
  [ ("monday", 0), ("tuesday", 1), ("wednesday", 2), ("thursday", 3),
    ("friday", 4), ("saturday", 5), ("sunday", 6) ]

/-- The `PlanParserService._get_day_offset`: look the lowercased day name up,
defaulting to `0` when absent. -/
def get_day_offset (day_name : String) : ℤ :=
  (days_table.lookup (pyLower day_name)).getD 0

/-- The `workout_type_mapping` dict of `save_parsed_plan`. -/
def workout_type_mapping : List (String × WorkoutType) :=
  [ ("Easy Run", .easy_run), ("Long Run", .long_run), ("Tempo", .tempo),
    ("Intervals", .intervals), ("Hills", .hills), ("Recovery", .recovery),
    ("Rest", .rest) ]

/-- The `workout_type_mapping.get(s, WorkoutType.EASY_RUN)`. -/
def mappedWorkoutType (s : String) : WorkoutType :=
  (workout_type_mapping.lookup s).getD .easy_run

/-- The rest-day skip test of `save_parsed_plan`:
`workout.get("workout_type", "").lower() == "rest"`. -/
def isRestWorkout (w : SWorkout) : Bool :=
  pyLower (w.workout_type.getD "") == "rest"

/-- The `Training` row `save_parsed_plan` builds for one (non-rest)
workout of week `week_number`:
`date = start_date + 7*(week_number-1) + day offset`. -/
def mkTraining (user_id : ℕ) (start_date : ℤ) (plan_title : String)
    (week_number : ℤ) (w : SWorkout) : Training :=
  { user_id := user_id
    date := start_date + 7 * (week_number - 1) + get_day_offset (w.day.getD "Monday")
    type := mappedWorkoutType (w.workout_type.getD "Easy Run")
    title := w.workout_type.getD "Easy Run"
    description := w.description.getD ""
    distance := w.distance
    plan_source := "coach_photo"
    plan_title := plan_title }

/-- The list of `Training` rows created by one call of
`PlanParserService.save_parsed_plan`: per week
(`week_number` defaulting to 1), per workout that is not a rest day, one
row — unconditionally; the function consults no existing records. -/
def save_parsed_plan_trainings (plan : SPlan) (user_id : ℕ) (start_date : ℤ) :
    List Training :=
  (plan.weekly_structure.map (fun wk =>
    (wk.workouts.filter (fun w => !(isRestWorkout w))).map
      (mkTraining user_id start_date (plan.title.getD "Untitled Plan")
        (wk.week_number.getD 1)))).flatten

/-- The training table after a `save_parsed_plan` call commits: the rows
it creates are appended to whatever the table already holds. -/
def save_parsed_plan_db (db : List Training) (plan : SPlan) (user_id : ℕ)
    (start_date : ℤ) : List Training :=
  db ++ save_parsed_plan_trainings plan user_id start_date

/-- Number of non-rest workouts of a plan. -/
def nonRestCount (plan : SPlan) : ℕ :=
  ((plan.weekly_structure.map
    (fun wk => (wk.workouts.filter (fun w => !(isRestWorkout w))).length)).sum)

example :
    save_parsed_plan_trainings
      ⟨some "P", [⟨some 1, [⟨some "Tuesday", some "Tempo", some "4m tempo", none⟩,
                            ⟨some "Wednesday", some "Rest", some "off", none⟩]⟩]⟩ 7 100
    = [⟨7, 101, .tempo, "Tempo", "4m tempo", none, "coach_photo", "P"⟩] := by decide

/-! ## Lemmas about the materializer -/

/-- Characterisation of the rows created by one `save_parsed_plan` call:
exactly the non-rest workouts, each through `mkTraining`. -/
theorem mem_save_trainings_iff (plan : SPlan) (u : ℕ) (sd : ℤ) (t : Training) :
    t ∈ save_parsed_plan_trainings plan u sd ↔
      ∃ wk ∈ plan.weekly_structure, ∃ w ∈ wk.workouts, isRestWorkout w = false ∧
        t = mkTraining u sd (plan.title.getD "Untitled Plan") (wk.week_number.getD 1) w := by
  constructor
  · intro ht
    simp only [save_parsed_plan_trainings, List.mem_flatten, List.mem_map] at ht
    obtain ⟨l, ⟨wk, hwk, rfl⟩, hti⟩ := ht
    obtain ⟨w, hw, rfl⟩ := List.mem_map.mp hti
    rw [List.mem_filter] at hw
    exact ⟨wk, hwk, w, hw.1, by simpa using hw.2, rfl⟩
  · rintro ⟨wk, hwk, w, hw, hrest, rfl⟩
    simp only [save_parsed_plan_trainings, List.mem_flatten, List.mem_map]
    refine ⟨_, ⟨wk, hwk, rfl⟩, List.mem_map.mpr ⟨w, ?_, rfl⟩⟩
    rw [List.mem_filter]
    exact ⟨hw, by simp [hrest]⟩

/-- A defaulted association-list lookup yields the default or a stored
value. -/
theorem lookup_getD_mem_or (l : List (String × WorkoutType)) (dflt : WorkoutType)
    (s : String) :
    (l.lookup s).getD dflt = dflt ∨ (l.lookup s).getD dflt ∈ l.map Prod.snd := by
  induction l with
  | nil => left; rfl
  | cons p tl ih =>
    rw [List.lookup]
    cases h : s == p.1 with
    | true => right; simp
    | false =>
      rcases ih with h' | h'
      · left; exact h'
      · right; simp only [List.map_cons, List.mem_cons]; right; exact h'

/-- The `mappedWorkoutType` only ever produces one of the seven mapped enum
values. -/
theorem mappedWorkoutType_mem (s : String) :
    mappedWorkoutType s ∈
      [WorkoutType.easy_run, .long_run, .tempo, .intervals, .hills, .recovery, .rest] := by
  rcases lookup_getD_mem_or workout_type_mapping .easy_run s with h | h
  · simp only [mappedWorkoutType] at h ⊢
    rw [h]
    simp
  · simp only [mappedWorkoutType] at h ⊢
    simp only [workout_type_mapping, List.map_cons, List.map_nil, List.mem_cons,
      List.not_mem_nil, or_false] at h
    simp only [List.mem_cons, List.not_mem_nil, or_false]
    tauto

/-! ## C9 -/

/-- C9: materialization creates a record for a workout only if its
workout type is not Rest — every persisted row originates from a
non-rest workout, and a plan consisting solely of rest workouts
materializes to zero records. -/
theorem c9_rest_workouts_materialize_nothing :
    (∀ (plan : SPlan) (u : ℕ) (sd : ℤ) (t : Training),
        t ∈ save_parsed_plan_trainings plan u sd →
        ∃ wk ∈ plan.weekly_structure, ∃ w ∈ wk.workouts, isRestWorkout w = false ∧
          t = mkTraining u sd (plan.title.getD "Untitled Plan") (wk.week_number.getD 1) w) ∧
    (∀ (plan : SPlan) (u : ℕ) (sd : ℤ),
        (∀ wk ∈ plan.weekly_structure, ∀ w ∈ wk.workouts, isRestWorkout w = true) →
        save_parsed_plan_trainings plan u sd = []) := by
  constructor
  · intro plan u sd t ht
    exact (mem_save_trainings_iff plan u sd t).mp ht
  · intro plan u sd h
    simp only [save_parsed_plan_trainings]
    rw [List.flatten_eq_nil_iff]
    intro l hl
    obtain ⟨wk, hwk, rfl⟩ := List.mem_map.mp hl
    have : wk.workouts.filter (fun w => !(isRestWorkout w)) = [] := by
      rw [List.filter_eq_nil_iff]
      intro w hw
      simp [h wk hwk w hw]
    rw [this, List.map_nil]

/-- Concrete plan (one rest day, one tempo day) exercising C9/C10. -/
def cplan9 : SPlan :=
  ⟨some "P9", [⟨some 1, [⟨some "Sunday", some "Rest", some "off", none⟩,
                         ⟨some "Tuesday", some "Tempo", some "4m tempo", none⟩]⟩]⟩

/-- The row `save_parsed_plan` creates for the tempo workout of
`cplan9`. -/
def ctr9 : Training := ⟨1, 1, .tempo, "Tempo", "4m tempo", none, "coach_photo", "P9"⟩

/-- Witness for C9 at a concrete plan. -/
theorem c9_witness :
    (ctr9 ∈ save_parsed_plan_trainings cplan9 1 0) ∧
    (∃ wk ∈ cplan9.weekly_structure, ∃ w ∈ wk.workouts, isRestWorkout w = false ∧
      ctr9 = mkTraining 1 0 (cplan9.title.getD "Untitled Plan") (wk.week_number.getD 1) w) :=
  ⟨by decide, c9_rest_workouts_materialize_nothing.1 cplan9 1 0 ctr9 (by decide)⟩

/-! ## C10 -/

/-- C10 (implicit): every materialized row's type comes from the
seven-entry `workout_type_mapping`; any workout-type string outside the
mapping — including "Cross Training" and "Race" — is silently mapped to
`easy_run` rather than rejected. -/
theorem c10_workout_type_mapping_total :
    (∀ (plan : SPlan) (u : ℕ) (sd : ℤ) (t : Training),
        t ∈ save_parsed_plan_trainings plan u sd →
        t.type ∈ [WorkoutType.easy_run, .long_run, .tempo, .intervals, .hills,
                  .recovery, .rest]) ∧
    mappedWorkoutType "Cross Training" = .easy_run ∧
    mappedWorkoutType "Race" = .easy_run ∧
    (∀ s : String, workout_type_mapping.lookup s = none → mappedWorkoutType s = .easy_run) := by
  refine ⟨?_, by decide, by decide, ?_⟩
  · intro plan u sd t ht
    obtain ⟨wk, _, w, _, _, rfl⟩ := (mem_save_trainings_iff plan u sd t).mp ht
    exact mappedWorkoutType_mem _
  · intro s h
    rw [mappedWorkoutType, h]; rfl

/-- Witness for C10 at a concrete plan and an unmapped type string. -/
theorem c10_witness :
    (ctr9 ∈ save_parsed_plan_trainings cplan9 1 0) ∧
    ctr9.type ∈ [WorkoutType.easy_run, .long_run, .tempo, .intervals, .hills,
                 .recovery, .rest] ∧
    workout_type_mapping.lookup "Yoga" = none ∧
    mappedWorkoutType "Yoga" = .easy_run :=
  ⟨by decide, c10_workout_type_mapping_total.1 cplan9 1 0 ctr9 (by decide), by decide,
    c10_workout_type_mapping_total.2.2.2 "Yoga" (by decide)⟩

/-! ## C1 -/

/-- Concrete one-workout plan for the C1 counterexample. -/
def cplan1 : SPlan :=
  ⟨some "Spring Plan", [⟨some 1, [⟨some "Monday", some "Easy Run", some "5k easy", none⟩]⟩]⟩

/-- C1 counterexample: `save_parsed_plan` materializes the same plan
twice into two rows at the same `(user, workout_date)` where one
materialization yields one row — the claimed dedup check does not exist
in it. -/
theorem c1_counterexample_duplicate_rows :
    (save_parsed_plan_db (save_parsed_plan_db [] cplan1 1 0) cplan1 1 0).length = 2 ∧
    (save_parsed_plan_db [] cplan1 1 0).length = 1 ∧
    ∀ t ∈ save_parsed_plan_db (save_parsed_plan_db [] cplan1 1 0) cplan1 1 0,
      t.user_id = 1 ∧ t.date = 0 := by decide

/-- C1 amended: `save_parsed_plan` consults no existing records — each
call appends one row per non-rest workout unconditionally, so
materializing the same plan twice persists twice as many rows as
materializing it once (duplicates at the same user and date included). -/
theorem c1_materialize_twice_doubles :
    ∀ (db : List Training) (plan : SPlan) (u : ℕ) (sd : ℤ),
      (save_parsed_plan_db (save_parsed_plan_db db plan u sd) plan u sd).length
        = db.length + 2 * (save_parsed_plan_trainings plan u sd).length := by
  intro db plan u sd
  simp [save_parsed_plan_db, List.length_append, two_mul, add_assoc]

/-! ## C6 -/

/-- Concrete plan whose only workout carries an unparseable day name. -/
def cplan6 : SPlan :=
  ⟨some "P6", [⟨some 1, [⟨some "Funday", some "Easy Run", some "jog", none⟩]⟩]⟩

/-- C6 counterexample: a non-rest workout with the unparseable day name
"Funday" is *not* skipped — it is materialized (dated to the week's
Monday, offset 0), so a workout with an unparseable day name does
produce a persisted record. -/
theorem c6_counterexample_funday_materialized :
    days_table.lookup (pyLower "Funday") = none ∧
    save_parsed_plan_trainings cplan6 1 0
      = [⟨1, 0, .easy_run, "Easy Run", "jog", none, "coach_photo", "P6"⟩] := by decide

/-- C6 amended: `_get_day_offset` maps any unrecognised day name to
offset 0 (Monday) instead of failing, and no workout is ever skipped
for its day name — the number of rows always equals the number of
non-rest workouts. -/
theorem c6_unknown_day_defaults_to_monday :
    (∀ s : String, days_table.lookup (pyLower s) = none → get_day_offset s = 0) ∧
    (∀ (plan : SPlan) (u : ℕ) (sd : ℤ),
      (save_parsed_plan_trainings plan u sd).length = nonRestCount plan) := by
  constructor
  · intro s h
    simp [get_day_offset, h]
  · intro plan u sd
    simp [save_parsed_plan_trainings, nonRestCount, List.length_flatten,
      List.map_map, Function.comp_def, List.length_map]

/-- Witness for C6 at the concrete day name "Funday". -/
theorem c6_witness :
    days_table.lookup (pyLower "Funday") = none ∧ get_day_offset "Funday" = 0 :=
  ⟨by decide, c6_unknown_day_defaults_to_monday.1 "Funday" (by decide)⟩

/-! ## C5: the midpoint fallback of `_extract_distance` -/

/-- The midpoint approximation the fallback *body* of
`_extract_distance` computes once its guard is passed: the mean of the
`distance_range` stored at the normalised key. -/
def typeRangeMidpoint (workout_type : String) : Option ℚ :=
  (workout_patterns.lookup (normKey workout_type)).map
    (fun p => (p.rangeLo + p.rangeHi) / 2)

/-- C5: on a workout text with no numeric distance pattern the fallback
guard `workout_type in self.workout_patterns` tests the *title-case*
classifier output against the snake_case table keys, so it fails for
every classifier output and `_extract_distance` returns `None`; the
body it guards would have produced the claimed midpoint (6.5 km for
"Easy Run"). -/
theorem c5_midpoint_fallback_unreachable :
    extract_distance "Monday easy jog" "Easy Run" = none ∧
    (workout_patterns.lookup "Easy Run").isSome = false ∧
    (workout_patterns.lookup "Intervals").isSome = false ∧
    (workout_patterns.lookup "Long Run").isSome = false ∧
    typeRangeMidpoint "Easy Run" = some (13/2) := by
  refine ⟨by decide, by decide, by decide, by decide, ?_⟩
  have h1 : normKey "Easy Run" = "easy_run" := by decide
  have h2 : workout_patterns.lookup "easy_run"
      = some ⟨["easy", "recovery", "steady", "conversational"], 3, 10⟩ := rfl
  simp only [typeRangeMidpoint, h1, h2, Option.map_some]
  norm_num

/-! ## Scanner lemmas for the regex embedding -/

/-- Splitting `takeWhile`/`dropWhile` at the end of a digit run. -/
theorem takeWhile_digits_append (r : List Char) (c : Char) (cs : List Char)
    (hr : ∀ x ∈ r, isDigitC x = true) (hc : isDigitC c = false) :
    (r ++ c :: cs).takeWhile isDigitC = r ∧ (r ++ c :: cs).dropWhile isDigitC = c :: cs := by
  induction r with
  | nil => simp [List.takeWhile_cons, List.dropWhile_cons, hc]
  | cons a t ih =>
    have ha : isDigitC a = true := hr a (List.mem_cons_self a t)
    have iht := ih (fun x hx => hr x (List.mem_cons_of_mem a hx))
    simp [List.takeWhile_cons, List.dropWhile_cons, ha, iht.1, iht.2]

/-- The `matchNumLit` at a nonempty digit run followed by a non-digit,
non-dot character: the match succeeds exactly when the literal matches
after skipping whitespace, and group 1 is the digit run. -/
theorem matchNumLit_digits_general (lit : List Char) (d : List Char) (c : Char)
    (cs : List Char) (hd : ∀ x ∈ d, isDigitC x = true) (hdne : d ≠ [])
    (hc : isDigitC c = false) (hdot : c ≠ '.') :
    matchNumLit lit (d ++ c :: cs)
      = if litMatchCI lit ((c :: cs).dropWhile isSpaceC)
        then some ((natOfDigits d : ℚ)) else none := by
  obtain ⟨h1, h2⟩ := takeWhile_digits_append d c cs hd hc
  simp only [matchNumLit, h1, h2, if_neg hdne]
  split
  · rename_i rest2 heq
    injection heq with h1 h2
    exact absurd h1 hdot
  · rfl

/-- The `searchNumLit` steps over a position holding a non-digit. -/
theorem searchNumLit_cons_nondigit (lit : List Char) (c : Char) (t : List Char)
    (hc : isDigitC c = false) :
    searchNumLit lit (c :: t) = searchNumLit lit t := by
  have hm : matchNumLit lit (c :: t) = none := by
    simp [matchNumLit, List.takeWhile_cons, hc]
  simp [searchNumLit, hm]

/-- The `searchNumLit` steps over a whole digit run whose continuation does
not complete a match. -/
theorem searchNumLit_skip_digitrun (lit : List Char) (d : List Char) (c : Char)
    (cs : List Char) (hd : ∀ x ∈ d, isDigitC x = true)
    (hc : isDigitC c = false) (hdot : c ≠ '.')
    (hlit : litMatchCI lit ((c :: cs).dropWhile isSpaceC) = false) :
    searchNumLit lit (d ++ c :: cs) = searchNumLit lit (c :: cs) := by
  induction d with
  | nil => rfl
  | cons a t ih =>
    have iht := ih (fun x hx => hd x (List.mem_cons_of_mem a hx))
    have hm : matchNumLit lit (a :: (t ++ c :: cs)) = none := by
      have hg := matchNumLit_digits_general lit (a :: t) c cs hd (by simp) hc hdot
      rw [List.cons_append] at hg
      rw [hg]
      simp [hlit]
    calc searchNumLit lit ((a :: t) ++ c :: cs)
        = searchNumLit lit (t ++ c :: cs) := by
          simp only [List.cons_append, searchNumLit, List.append_eq, hm]
      _ = searchNumLit lit (c :: cs) := iht

/-- The `searchNumLit` finds a nonempty digit run whose continuation
completes the literal match, returning the run's value. -/
theorem searchNumLit_digitrun_found (lit : List Char) (d : List Char) (c : Char)
    (cs : List Char) (hd : ∀ x ∈ d, isDigitC x = true) (hdne : d ≠ [])
    (hc : isDigitC c = false) (hdot : c ≠ '.')
    (hlit : litMatchCI lit ((c :: cs).dropWhile isSpaceC) = true) :
    searchNumLit lit (d ++ c :: cs) = some ((natOfDigits d : ℚ)) := by
  have hm : matchNumLit lit (d ++ c :: cs) = some ((natOfDigits d : ℚ)) := by
    rw [matchNumLit_digits_general lit d c cs hd hdne hc hdot, if_pos hlit]
  cases d with
  | nil => exact absurd rfl hdne
  | cons a t =>
    rw [List.cons_append] at hm ⊢
    simp only [searchNumLit, hm]

/-- A case-insensitive literal never matches at a character differing
from its head. -/
theorem litMatchCI_head_ne (l0 : Char) (ls : List Char) (c : Char) (cs : List Char)
    (h : c.toLower ≠ l0.toLower) : litMatchCI (l0 :: ls) (c :: cs) = false := by
  simp [litMatchCI, h]

/-! ## C2/C3: what `_extract_distance` does on the spec's input forms -/

/-- Dropping leading whitespace over the `" x "` separator and, one
character at a time, stepping the scan past `' '`, `'x'`, `' '`. -/
theorem searchNumLit_step_sep (lit : List Char) (tail : List Char) :
    searchNumLit lit (' ' :: 'x' :: ' ' :: tail) = searchNumLit lit tail := by
  rw [searchNumLit_cons_nondigit lit ' ' _ (by decide),
      searchNumLit_cons_nondigit lit 'x' _ (by decide),
      searchNumLit_cons_nondigit lit ' ' _ (by decide)]

/-- C2 amended: on an interval description of the form `"R x Dm"` the
heuristic extractor returns `round2(D/1000)` — the value of the first
bare numeric+`m` match — with no multiplication by the repetition count
and no 6.4 km warm-up/cool-down allowance.  (The Σ reps×length + 6.4
rule exists only as prose instructions inside the vision prompt of
`_analyze_plan_image`.) -/
theorem c2_first_match_no_interval_sum :
    ∀ (r d : List Char), r ≠ [] → d ≠ [] →
      (∀ x ∈ r, isDigitC x = true) → (∀ x ∈ d, isDigitC x = true) →
      extract_distance (String.mk (r ++ ' ' :: 'x' :: ' ' :: (d ++ ['m']))) "Intervals"
        = some (pyRound2 ((natOfDigits d : ℚ) / 1000)) := by
  intro r d hr hd hrd hdd
  have hdw : (' ' :: 'x' :: ' ' :: (d ++ ['m'])).dropWhile isSpaceC
      = 'x' :: ' ' :: (d ++ ['m']) := by
    simp [List.dropWhile_cons, isSpaceC]
  have hskip : ∀ lit : List Char, litMatchCI lit ('x' :: ' ' :: (d ++ ['m'])) = false →
      searchNumLit lit (r ++ ' ' :: 'x' :: ' ' :: (d ++ ['m']))
        = searchNumLit lit (d ++ ['m']) := by
    intro lit hlit
    rw [searchNumLit_skip_digitrun lit r ' ' _ hrd (by decide) (by decide)
        (hdw ▸ hlit), searchNumLit_step_sep]
  have h1 : searchNumLit "mile".data (r ++ ' ' :: 'x' :: ' ' :: (d ++ ['m'])) = none := by
    rw [hskip _ (litMatchCI_head_ne 'm' _ 'x' _ (by decide)),
        searchNumLit_skip_digitrun _ d 'm' [] hdd (by decide) (by decide) (by decide)]
    decide
  have h2 : searchNumLit "km".data (r ++ ' ' :: 'x' :: ' ' :: (d ++ ['m'])) = none := by
    rw [hskip _ (litMatchCI_head_ne 'k' _ 'x' _ (by decide)),
        searchNumLit_skip_digitrun _ d 'm' [] hdd (by decide) (by decide) (by decide)]
    decide
  have h3 : searchNumLit "m".data (r ++ ' ' :: 'x' :: ' ' :: (d ++ ['m']))
      = some ((natOfDigits d : ℚ)) := by
    rw [hskip _ (litMatchCI_head_ne 'm' _ 'x' _ (by decide))]
    exact searchNumLit_digitrun_found _ d 'm' [] hdd hd (by decide) (by decide) (by decide)
  have hs : (String.mk (r ++ ' ' :: 'x' :: ' ' :: (d ++ ['m']))).data
      = r ++ ' ' :: 'x' :: ' ' :: (d ++ ['m']) := rfl
  simp only [extract_distance, hs, h1, h2, h3]

/-- C2 counterexample: on `"6 x 800m"` the extractor returns 0.8 km, not
the claimed `6×0.8 + 6.4 = 11.2` km, and on the claim's own worked
example `"6 x 800 + 4 x 400"` (no unit suffix) it returns no distance at
all instead of 12.8 km. -/
theorem c2_counterexample_no_interval_formula :
    extract_distance "6 x 800m" "Intervals" = some (4/5) ∧
    ((4 : ℚ)/5) ≠ 6 * (800/1000) + 64/10 ∧
    extract_distance "6 x 800 + 4 x 400" "Intervals" = none ∧
    (none : Option ℚ) ≠ some (6 * (800/1000) + 4 * (400/1000) + 64/10) := by
  refine ⟨?_, by norm_num, by decide, by simp⟩
  have h1 : searchNumLit "mile".data "6 x 800m".data = none := by decide
  have h2 : searchNumLit "km".data "6 x 800m".data = none := by decide
  have h3 : searchNumLit "m".data "6 x 800m".data = some 800 := by decide
  simp only [extract_distance, h1, h2, h3, pyRound2]
  rw [show ((800 : ℚ) / 1000 * 100) = ((80 : ℤ) : ℚ) by norm_num, roundHalfEven_intCast]
  norm_num

/-- Witness for C2 at `r = "6"`, `d = "800"`. -/
theorem c2_witness :
    ((['6'] : List Char) ≠ [] ∧ (['8', '0', '0'] : List Char) ≠ [] ∧
      (∀ x ∈ (['6'] : List Char), isDigitC x = true) ∧
      (∀ x ∈ (['8', '0', '0'] : List Char), isDigitC x = true)) ∧
    extract_distance (String.mk (['6'] ++ ' ' :: 'x' :: ' ' :: (['8', '0', '0'] ++ ['m'])))
        "Intervals"
      = some (pyRound2 ((natOfDigits ['8', '0', '0'] : ℚ) / 1000)) :=
  ⟨⟨by decide, by decide, by decide, by decide⟩,
    c2_first_match_no_interval_sum ['6'] ['8', '0', '0'] (by decide) (by decide)
      (by decide) (by decide)⟩

/-- C3 amended: on a plain-mileage description `"Nm easy"` the
heuristic extractor treats the bare `m` suffix as *meters*, returning
`round2(N/1000)` km; the ×1.60934 miles conversion fires only when the
text contains the token `mile`/`miles` (second conjunct:
`"N miles easy"` does get `round2(N × 1.60934)`). -/
theorem c3_bare_m_is_meters :
    ∀ n : List Char, n ≠ [] → (∀ x ∈ n, isDigitC x = true) →
      extract_distance (String.mk (n ++ ('m' :: ' ' :: 'e' :: 'a' :: 's' :: 'y' :: [])))
          "Easy Run"
        = some (pyRound2 ((natOfDigits n : ℚ) / 1000)) ∧
      extract_distance (String.mk (n ++ (' ' :: 'm' :: 'i' :: 'l' :: 'e' :: 's' :: ' ' ::
          'e' :: 'a' :: 's' :: 'y' :: []))) "Easy Run"
        = some (pyRound2 ((natOfDigits n : ℚ) * (160934/100000))) := by
  intro n hn hnd
  constructor
  · have h1 : searchNumLit "mile".data
        (n ++ ('m' :: ' ' :: 'e' :: 'a' :: 's' :: 'y' :: [])) = none := by
      rw [searchNumLit_skip_digitrun _ n 'm' _ hnd (by decide) (by decide) (by decide)]
      decide
    have h2 : searchNumLit "km".data
        (n ++ ('m' :: ' ' :: 'e' :: 'a' :: 's' :: 'y' :: [])) = none := by
      rw [searchNumLit_skip_digitrun _ n 'm' _ hnd (by decide) (by decide) (by decide)]
      decide
    have h3 : searchNumLit "m".data
        (n ++ ('m' :: ' ' :: 'e' :: 'a' :: 's' :: 'y' :: []))
        = some ((natOfDigits n : ℚ)) :=
      searchNumLit_digitrun_found _ n 'm' _ hnd hn (by decide) (by decide) (by decide)
    have hs : (String.mk (n ++ ('m' :: ' ' :: 'e' :: 'a' :: 's' :: 'y' :: []))).data
        = n ++ ('m' :: ' ' :: 'e' :: 'a' :: 's' :: 'y' :: []) := rfl
    simp only [extract_distance, hs, h1, h2, h3]
  · have h1 : searchNumLit "mile".data
        (n ++ (' ' :: 'm' :: 'i' :: 'l' :: 'e' :: 's' :: ' ' ::
          'e' :: 'a' :: 's' :: 'y' :: []))
        = some ((natOfDigits n : ℚ)) :=
      searchNumLit_digitrun_found _ n ' ' _ hnd hn (by decide) (by decide) (by decide)
    have hs : (String.mk (n ++ (' ' :: 'm' :: 'i' :: 'l' :: 'e' :: 's' :: ' ' ::
        'e' :: 'a' :: 's' :: 'y' :: []))).data
        = n ++ (' ' :: 'm' :: 'i' :: 'l' :: 'e' :: 's' :: ' ' ::
          'e' :: 'a' :: 's' :: 'y' :: []) := rfl
    simp only [extract_distance, hs, h1]

/-- C3 counterexample: `"4m easy"` yields 0.00 km (4 m rounded to two
decimals), not the claimed `4 × 1.60934 = 6.43736` km. -/
theorem c3_counterexample_not_miles :
    extract_distance "4m easy" "Easy Run" = some 0 ∧
    (0 : ℚ) ≠ 4 * (160934/100000) := by
  refine ⟨?_, by norm_num⟩
  have h1 : searchNumLit "mile".data "4m easy".data = none := by decide
  have h2 : searchNumLit "km".data "4m easy".data = none := by decide
  have h3 : searchNumLit "m".data "4m easy".data = some 4 := by decide
  simp only [extract_distance, h1, h2, h3, pyRound2]
  rw [roundHalfEven_eval_lt ((4 : ℚ)/1000 * 100) 0 (by norm_num) (by norm_num)]
  norm_num

/-- Witness for C3 at `n = "5"`. -/
theorem c3_witness :
    ((['5'] : List Char) ≠ [] ∧ (∀ x ∈ (['5'] : List Char), isDigitC x = true)) ∧
    extract_distance (String.mk (['5'] ++ ('m' :: ' ' :: 'e' :: 'a' :: 's' :: 'y' :: [])))
        "Easy Run"
      = some (pyRound2 ((natOfDigits ['5'] : ℚ) / 1000)) :=
  ⟨⟨by decide, by decide⟩,
    (c3_bare_m_is_meters ['5'] (by decide) (by decide)).1⟩

/-! ## C4: `MLPlanParser.verify_parsed_plan`

The plan dict is read through `.get(...)`; Python truthiness of
`workout.get(field)` (absent key, `None` or the empty string are all
falsy) is `truthyS`. -/

/-- A workout dict as read by `verify_parsed_plan` /
`_calculate_workout_confidence` (all fields via `.get`, `distance` a
string as produced by `_parse_workout`). -/
structure VWorkout where
  day : Option String
  workout_type : Option String
  description : Option String
  distance : Option String
  deriving Repr, DecidableEq

/-- A week dict as read by `verify_parsed_plan`. -/
structure VWeek where
  week_number : Option ℤ
  workouts : List VWorkout
  deriving Repr, DecidableEq

/-- The plan dict as read by `verify_parsed_plan`. -/
structure VPlan where
  weekly_structure : List VWeek
  deriving Repr, DecidableEq

/-- The verification dict built by `verify_parsed_plan`. -/
structure Verification where
  is_valid : Bool
  confidence_score : ℚ
  issues : List String
  deriving Repr, DecidableEq

/-- Python truthiness of an optional string. -/
def truthyS : Option String → Bool
  | none => false
  | some s => !(s == "")

/-- Python `f"{x}"` of an optional string (`None` prints as "None"). -/
def pyShowOptStr (o : Option String) : String := o.getD "None"

/-- Python `f"{x}"` of an optional integer. -/
def pyShowOptInt : Option ℤ → String
  | none => "None"
  | some n => toString n

/-- The `s.replace('_', ' ')` (single-character pattern, hence a character
map). -/
def keyToPhrase (s : String) : String :=
  String.mk (s.data.map (fun c => if c = '_' then ' ' else c))

/-- Python's substring test `needle in hay`. -/
def substrB (needle : List Char) : List Char → Bool
  | [] => needle.isEmpty
  | c :: t => needle.isPrefixOf (c :: t) || substrB needle t

/-- Python `float(s)` restricted to the numeral forms the parser
produces: optional sign, digits, optional fractional part, surrounding
whitespace.  (Python's `float` also accepts exponents and `inf`/`nan`;
those never reach this call and are modelled as parse failures.) -/
def pyFloatParse (s : String) : Option ℚ :=
  let cs := ((s.data.dropWhile isSpaceC).reverse.dropWhile isSpaceC).reverse
  let signed : ℚ × List Char :=
    match cs with
    | '-' :: t => (-1, t)
    | '+' :: t => (1, t)
    | t => (1, t)
  let ip := signed.2.takeWhile isDigitC
  let r1 := signed.2.dropWhile isDigitC
  match r1 with
  | [] => if ip = [] then none else some (signed.1 * (natOfDigits ip : ℚ))
  | '.' :: r2 =>
    let fp := r2.takeWhile isDigitC
    let r3 := r2.dropWhile isDigitC
    if r3 = [] then
      if ip = [] && fp = [] then none else some (signed.1 * numVal ip fp)
    else none
  | _ => none

/-- The `MLPlanParser._calculate_workout_confidence`: keyword-overlap scores
for every pattern whose key (underscores as spaces) is a substring of
the lowercased workout type, then a distance score (1.0 in range, 0.5
out of range, 0.0 unparsable) — the latter guarded by the *lowercased*
type being a table key. -/
def calc_workout_confidence (w : VWorkout) : ℚ :=
  let wt := pyLower (w.workout_type.getD "")
  let desc := pyLower (w.description.getD "")
  let typeScores := workout_patterns.filterMap (fun kp =>
    if substrB (keyToPhrase kp.1).data wt.data then
      some (((kp.2.keywords.countP (fun kw => substrB kw.data desc.data)) : ℚ)
        / (kp.2.keywords.length : ℚ))
    else none)
  let distScores : List ℚ :=
    if truthyS w.distance then
      match pyFloatParse (w.distance.getD "") with
      | none => [0]
      | some dq =>
        if (workout_patterns.lookup wt).isSome then
          match workout_patterns.lookup (normKey wt) with
          | some pat =>
            if pat.rangeLo ≤ dq ∧ dq ≤ pat.rangeHi then [1] else [1/2]
          | none => []
        else []
    else []
  let scores := typeScores ++ distScores
  if scores.isEmpty then 0 else scores.sum / (scores.length : ℚ)

/-- The required-fields test of `verify_parsed_plan`:
`all(workout.get(field) for field in ["day", "workout_type", "description"])`. -/
def workoutComplete (w : VWorkout) : Bool :=
  truthyS w.day && truthyS w.workout_type && truthyS w.description

/-- One workout step of the verification loop: an issue for an
incomplete workout, otherwise a confidence entry. -/
def workoutStep (a : List String × List ℚ) (w : VWorkout) : List String × List ℚ :=
  if !(workoutComplete w) then
    (a.1 ++ ["Missing required fields in " ++ pyShowOptStr w.day ++ " workout"], a.2)
  else
    (a.1, a.2 ++ [calc_workout_confidence w])

/-- One week step of the verification loop: an issue for a week without
workouts, otherwise the workout loop. -/
def verifyStep (acc : List String × List ℚ) (wk : VWeek) : List String × List ℚ :=
  if wk.workouts.isEmpty then
    (acc.1 ++ ["Week " ++ pyShowOptInt wk.week_number ++ " has no workouts"], acc.2)
  else
    wk.workouts.foldl workoutStep acc

/-- The `MLPlanParser.verify_parsed_plan`.  Starts from
`{is_valid: True, confidence_score: 0.0, issues: []}`; an empty (or
absent) `weekly_structure` short-circuits to invalid; the final block
recomputes score and validity *only when at least one workout was
scored*. -/
def verify_parsed_plan (p : VPlan) : Verification :=
  if p.weekly_structure.isEmpty then
    ⟨false, 0, ["Missing weekly structure"]⟩
  else
    let acc := p.weekly_structure.foldl verifyStep ([], [])
    if acc.2.isEmpty then ⟨true, 0, acc.1⟩
    else ⟨decide (acc.2.sum / (acc.2.length : ℚ) > 7/10),
          acc.2.sum / (acc.2.length : ℚ), acc.1⟩

/-- The workout loop over all-incomplete workouts only accumulates
issues. -/
theorem foldl_workoutStep_incomplete (ws : List VWorkout) (a : List String × List ℚ)
    (h : ∀ w ∈ ws, workoutComplete w = false) :
    ws.foldl workoutStep a
      = (a.1 ++ ws.map
          (fun w => "Missing required fields in " ++ pyShowOptStr w.day ++ " workout"),
         a.2) := by
  induction ws generalizing a with
  | nil => simp
  | cons w ws' ih =>
    have hw : workoutComplete w = false := h w (List.mem_cons_self w ws')
    rw [List.foldl_cons]
    rw [ih _ (fun x hx => h x (List.mem_cons_of_mem w hx))]
    simp [workoutStep, hw, List.append_assoc]

/-- The week loop over weeks whose workouts are all incomplete: no
scores, one issue per incomplete workout and one per empty week. -/
theorem foldl_verifyStep_incomplete (weeks : List VWeek) (acc : List String × List ℚ)
    (h : ∀ wk ∈ weeks, ∀ w ∈ wk.workouts, workoutComplete w = false) :
    (weeks.foldl verifyStep acc).2 = acc.2 ∧
    (weeks.foldl verifyStep acc).1.length
      = acc.1.length + (weeks.map
          (fun wk => if wk.workouts.isEmpty then 1 else wk.workouts.length)).sum := by
  induction weeks generalizing acc with
  | nil => simp
  | cons wk weeks' ih =>
    have hwk := h wk (List.mem_cons_self wk weeks')
    have step : (verifyStep acc wk).2 = acc.2 ∧
        (verifyStep acc wk).1.length
          = acc.1.length + (if wk.workouts.isEmpty then 1 else wk.workouts.length) := by
      by_cases he : wk.workouts.isEmpty
      · simp [verifyStep, he]
      · rw [verifyStep, if_neg he, foldl_workoutStep_incomplete _ _ hwk]
        simp [he]
    rw [List.foldl_cons]
    obtain ⟨ih1, ih2⟩ := ih (verifyStep acc wk)
      (fun x hx => h x (List.mem_cons_of_mem wk hx))
    refine ⟨by rw [ih1, step.1], ?_⟩
    rw [ih2, step.2]
    simp [List.map_cons, List.sum_cons, Nat.add_assoc]

/-- C4 amended: a plan with a non-empty `weekly_structure` whose every
workout is missing day, type or description gets one issue per such
workout (plus one per empty week), all of them excluded from scoring,
and confidence score 0.0 — but it is left marked *valid*
(`is_valid = True`), because validity is only recomputed when at least
one workout was scored. -/
theorem c4_all_incomplete_left_valid :
    ∀ p : VPlan, p.weekly_structure ≠ [] →
      (∀ wk ∈ p.weekly_structure, ∀ w ∈ wk.workouts, workoutComplete w = false) →
      (verify_parsed_plan p).is_valid = true ∧
      (verify_parsed_plan p).confidence_score = 0 ∧
      (verify_parsed_plan p).issues.length
        = (p.weekly_structure.map
            (fun wk => if wk.workouts.isEmpty then 1 else wk.workouts.length)).sum := by
  intro p hne h
  obtain ⟨h2, h1⟩ := foldl_verifyStep_incomplete p.weekly_structure ([], []) h
  have hemp : p.weekly_structure.isEmpty = false := by
    cases hs : p.weekly_structure with
    | nil => exact absurd hs hne
    | cons a t => rfl
  have hs2 : (p.weekly_structure.foldl verifyStep ([], [])).2.isEmpty = true := by
    rw [h2]; rfl
  have hverify : verify_parsed_plan p
      = ⟨true, 0, (p.weekly_structure.foldl verifyStep ([], [])).1⟩ := by
    simp only [verify_parsed_plan]
    rw [if_neg (by simp [hemp]), if_pos hs2]
  rw [hverify]
  exact ⟨rfl, rfl, by simpa using h1⟩

/-- Concrete plan (one week, one workout missing its day) for the C4
counterexample. -/
def cplan4 : VPlan := ⟨[⟨some 1, [⟨none, some "Easy Run", some "jog", none⟩]⟩]⟩

/-- C4 counterexample: `cplan4` has a non-empty `weekly_structure` and
every workout missing a required field, yet `verify_parsed_plan` leaves
it marked **valid** (`is_valid = True`) with confidence 0.0 — the claim
says it is marked invalid. -/
theorem c4_counterexample_left_valid :
    cplan4.weekly_structure ≠ [] ∧
    (∀ wk ∈ cplan4.weekly_structure, ∀ w ∈ wk.workouts, workoutComplete w = false) ∧
    verify_parsed_plan cplan4
      = ⟨true, 0, ["Missing required fields in None workout"]⟩ := by decide

/-- Concrete two-week plan (an all-incomplete week and an empty week)
for the C4 witness. -/
def cplan4b : VPlan :=
  ⟨[⟨some 1, [⟨some "Monday", none, some "jog", none⟩,
              ⟨none, some "Easy Run", none, none⟩]⟩,
    ⟨some 2, []⟩]⟩

/-- Witness for C4 at `cplan4b`. -/
theorem c4_witness :
    (cplan4b.weekly_structure ≠ [] ∧
      (∀ wk ∈ cplan4b.weekly_structure, ∀ w ∈ wk.workouts, workoutComplete w = false)) ∧
    ((verify_parsed_plan cplan4b).is_valid = true ∧
      (verify_parsed_plan cplan4b).confidence_score = 0 ∧
      (verify_parsed_plan cplan4b).issues.length
        = (cplan4b.weekly_structure.map
            (fun wk => if wk.workouts.isEmpty then 1 else wk.workouts.length)).sum) :=
  ⟨⟨by decide, by decide⟩, c4_all_incomplete_left_valid cplan4b (by decide) (by decide)⟩

/-! ## `MLPlanParser.parse_plan` pipeline

The week/workout segmentation regexes are embedded as scanners; the
spaCy/sklearn calls (sentence segmentation, TF-IDF vectors) are
external-library components and are modelled from the spec where
noted.  Fuel-based recursion (`fuel = length + 1`) is used where a scan
resumes at a computed position; the fuel always suffices because every
step consumes at least one character. -/

/-- Strip surrounding whitespace (Python `str.strip()`). -/
def pyStrip (cs : List Char) : List Char :=
  ((cs.dropWhile isSpaceC).reverse.dropWhile isSpaceC).reverse

/-- Does `📊\s*Week` (the lookahead of `_split_into_weeks`) match at
this position? -/
def isLookaheadAt (cs : List Char) : Bool :=
  match cs with
  | c :: t => c = '📊' && ['W', 'e', 'e', 'k'].isPrefixOf (t.dropWhile isSpaceC)
  | [] => false

/-- Match `📊\s*Week\s*\d+` at this position, returning the consumed
characters and the remainder. -/
def matchWeekStart (cs : List Char) : Option (List Char × List Char) :=
  match cs with
  | [] => none
  | c :: t =>
    if c = '📊' then
      let sp1 := t.takeWhile isSpaceC
      let t1 := t.dropWhile isSpaceC
      if ['W', 'e', 'e', 'k'].isPrefixOf t1 then
        let t2 := t1.drop 4
        let sp2 := t2.takeWhile isSpaceC
        let t3 := t2.dropWhile isSpaceC
        let ds := t3.takeWhile isDigitC
        let t4 := t3.dropWhile isDigitC
        if ds = [] then none
        else some (c :: (sp1 ++ ['W', 'e', 'e', 'k'] ++ sp2 ++ ds), t4)
      else none
    else none

/-- The lazy `.*?(?=📊\s*Week|\Z)` tail: consume until the lookahead
matches (checked before each character) or the text ends. -/
def takeUntilLookahead : List Char → List Char × List Char
  | [] => ([], [])
  | c :: t =>
    if isLookaheadAt (c :: t) then ([], c :: t)
    else
      let r := takeUntilLookahead t
      (c :: r.1, r.2)

/-- The `re.findall` of `📊\s*Week\s*\d+.*?(?=📊\s*Week|\Z)` (no capturing
group, so whole matches), scanning leftmost and resuming after each
match. -/
def scanWeeks : ℕ → List Char → List (List Char)
  | 0, _ => []
  | _ + 1, [] => []
  | fuel + 1, c :: t =>
    match matchWeekStart (c :: t) with
    | some m =>
      let r := takeUntilLookahead m.2
      (m.1 ++ r.1) :: scanWeeks fuel r.2
    | none => scanWeeks fuel t

/-- The `MLPlanParser._split_into_weeks`. -/
def split_into_weeks (s : String) : List String :=
  (scanWeeks (s.data.length + 1) s.data).map String.mk

/-- Does `Week\s*\d+` match at this position? -/
def hasWeekNumAt (cs : List Char) : Bool :=
  ['W', 'e', 'e', 'k'].isPrefixOf cs &&
    !(((cs.drop 4).dropWhile isSpaceC).takeWhile isDigitC).isEmpty

/-- The `re.search(r'Week\s*\d+', ...)` as a Boolean. -/
def hasWeekNum : List Char → Bool
  | [] => false
  | c :: t => hasWeekNumAt (c :: t) || hasWeekNum t

/-- Modelled from the spec: the spaCy sentence segmentation
(`doc.sents`) behind `_extract_plan_title` is an external NLP
component; per the spec the title is the "first text line/sentence that
does not contain a week-number token".  Sentences are cut after
`.`, `!`, `?` or a newline. -/
def splitSentences (cs : List Char) : List (List Char) :=
  let step := fun (acc : List (List Char) × List Char) c =>
    if c = '.' || c = '!' || c = '?' || c = '\n' then (acc.1 ++ [acc.2 ++ [c]], [])
    else (acc.1, acc.2 ++ [c])
  let r := cs.foldl step ([], [])
  if r.2.isEmpty then r.1 else r.1 ++ [r.2]

/-- The `MLPlanParser._extract_plan_title` (sentence segmentation modelled
from the spec, see `splitSentences`): first sentence without a
`Week\s*\d+` match, stripped; fallback "Training Plan". -/
def extract_plan_title (s : String) : String :=
  match (splitSentences s.data).find? (fun sent => !(hasWeekNum sent)) with
  | some sent => String.mk (pyStrip sent)
  | none => "Training Plan"

/-- The alternation `(Monday|Tuesday|...|Sunday)` in source order. -/
def dayNames : List String :=
  ["Monday", "Tuesday", "Wednesday", "Thursday", "Friday", "Saturday", "Sunday"]

/-- The day name matching at this position, if any. -/
def dayAt (cs : List Char) : Option String :=
  dayNames.find? (fun d => d.data.isPrefixOf cs)

/-- Rest of the text from the next day-name occurrence (the resumption
point after the lazy `.*?(?=(?:Monday|...)|\Z)` tail). -/
def takeUntilDay : List Char → List Char
  | [] => []
  | c :: t => if (dayAt (c :: t)).isSome then c :: t else takeUntilDay t

/-- The `re.findall` of `(Monday|...).*?(?=(?:Monday|...)|\Z)`.  The
pattern has exactly one capturing group — the day name — so `findall`
returns only the day names, not the full workout segments. -/
def scanDays : ℕ → List Char → List String
  | 0, _ => []
  | _ + 1, [] => []
  | fuel + 1, c :: t =>
    match dayAt (c :: t) with
    | some d => d :: scanDays fuel (takeUntilDay ((c :: t).drop d.data.length))
    | none => scanDays fuel t

/-- The `MLPlanParser._split_into_workouts` (each "workout text" is just a
day name, by the single-group `findall` semantics). -/
def split_into_workouts (s : String) : List String :=
  scanDays (s.data.length + 1) s.data

/-- The `re.search` of `Total Distance\s*(\d+(?:\.\d+)?)\s*km`
(case-sensitive), at one position. -/
def matchTotalDistanceAt (cs : List Char) : Option ℚ :=
  if "Total Distance".data.isPrefixOf cs then
    let t1 := (cs.drop 14).dropWhile isSpaceC
    let ds := t1.takeWhile isDigitC
    let t2 := t1.dropWhile isDigitC
    if ds = [] then none
    else
      match t2 with
      | '.' :: r2 =>
        let fs := r2.takeWhile isDigitC
        let r3 := r2.dropWhile isDigitC
        if fs = [] then
          if "km".data.isPrefixOf ('.' :: r2) then some ((natOfDigits ds : ℚ)) else none
        else if "km".data.isPrefixOf (r3.dropWhile isSpaceC) then some (numVal ds fs)
        else if "km".data.isPrefixOf ('.' :: r2) then some ((natOfDigits ds : ℚ)) else none
      | _ =>
        if "km".data.isPrefixOf (t2.dropWhile isSpaceC) then some ((natOfDigits ds : ℚ))
        else none
  else none

/-- Leftmost search for the total-distance pattern. -/
def searchTotalDistance : List Char → Option ℚ
  | [] => none
  | c :: t =>
    match matchTotalDistanceAt (c :: t) with
    | some q => some q
    | none => searchTotalDistance t

/-- The `MLPlanParser._extract_total_distance`: matched number or 0.0. -/
def extract_total_distance (s : String) : ℚ :=
  (searchTotalDistance s.data).getD 0

/-! ### Classification (`_classify_workout_type`)

The TF-IDF vectorizer is sklearn, an external library; per the spec the
classifier is embedded as term-frequency vectors compared by cosine
similarity, iterating the pattern table in declaration order and keeping
a type only on *strict* improvement (so the first declared wins ties and
"Easy Run" is the default).  Cosine comparisons are done by
cross-multiplying squares to stay in ℚ. -/

/-- A token character (`\w` of the sklearn token pattern). -/
def isWordChar (c : Char) : Bool := c.isAlphanum || c = '_'

/-- Runs of word characters. -/
def splitRuns : ℕ → List Char → List (List Char)
  | 0, _ => []
  | _ + 1, [] => []
  | fuel + 1, c :: t =>
    if isWordChar c then
      (c :: t.takeWhile isWordChar) :: splitRuns fuel (t.dropWhile isWordChar)
    else splitRuns fuel t

/-- Modelled from the spec: tokenisation of the external vectorizer
(lowercased word runs of length ≥ 2, sklearn's default token pattern). -/
def tokenize (s : String) : List String :=
  ((splitRuns (s.data.length + 1) s.data).filter (fun r => 2 ≤ r.length)).map
    (fun r => String.mk (r.map Char.toLower))

/-- Term frequency of one term. -/
def tfCount (toks : List String) (t : String) : ℕ := toks.countP (· == t)

/-- Dot product of two term-frequency vectors. -/
def dotTF (a b : List String) : ℚ :=
  ((a.dedup.map (fun t => tfCount a t * tfCount b t)).sum : ℚ)

/-- Squared-norm product representation of a cosine similarity:
`(dot, ‖a‖²·‖b‖²)`. -/
def simPair (a b : List String) : ℚ × ℚ := (dotTF a b, dotTF a a * dotTF b b)

/-- The `sim(a) > sim(b)` on the squared representation (dot products of
count vectors are nonnegative, so signs are determined). -/
def simGTb (a b : ℚ × ℚ) : Bool :=
  if a.1 ≤ 0 || a.2 ≤ 0 then false
  else if b.1 ≤ 0 || b.2 ≤ 0 then true
  else b.1 ^ 2 * a.2 < a.1 ^ 2 * b.2

/-- Python `str.title()`. -/
def titleCase (s : String) : String :=
  let step := fun (acc : List Char × Bool) c =>
    if c.isAlpha then (acc.1 ++ [if acc.2 then c.toUpper else c.toLower], false)
    else (acc.1 ++ [c], true)
  String.mk (s.data.foldl step ([], true)).1

/-- The `MLPlanParser._classify_workout_type` (vector representation
modelled from the spec, see above): best similarity wins, strict
improvement only, default "Easy Run". -/
def classify_workout_type (s : String) : String :=
  let toks := tokenize s
  let step := fun (best : String × (ℚ × ℚ)) (kp : String × WorkoutPattern) =>
    let sim := simPair toks (tokenize (String.intercalate " " kp.2.keywords))
    if simGTb sim best.2 then (titleCase (keyToPhrase kp.1), sim) else best
  (workout_patterns.foldl step ("Easy Run", (0, 0))).1

/-- Characters after the first newline, if one exists. -/
def afterFirstNewline : List Char → Option (List Char)
  | [] => none
  | c :: t => if c = '\n' then some t else afterFirstNewline t

/-- The `re.sub(r'^(Monday|...).*?\n', '', ...)`: drop a leading day-name
line (through its first newline; no newline, no substitution). -/
def stripLeadingDayLine (cs : List Char) : List Char :=
  match dayAt cs with
  | some d =>
    match afterFirstNewline (cs.drop d.data.length) with
    | some after => after
    | none => cs
  | none => cs

/-- The `re.sub(r'^(🏃|⚡|🏃‍♂️)\s*.*?\n', '', ...)`: drop a leading
emoji-marked line.  The whitespace run after the emoji is consumed
greedily, then the lazy tail ends at the next newline; when the only
newlines sit inside the whitespace run itself, backtracking ends the
match at the run's last newline. -/
def stripLeadingEmojiLine (cs : List Char) : List Char :=
  match cs with
  | c :: t =>
    if c = '🏃' || c = '⚡' then
      match afterFirstNewline (t.dropWhile isSpaceC) with
      | some after => after
      | none =>
        let ws := t.takeWhile isSpaceC
        if ws.contains '\n' then
          match afterFirstNewline ws.reverse with
          | some revTail => revTail.reverse ++ t.dropWhile isSpaceC
          | none => cs
        else cs
    else cs
  | [] => cs

/-- The `MLPlanParser._extract_description`: strip the day line, the emoji
line, then surrounding whitespace. -/
def extract_description (s : String) : String :=
  String.mk (pyStrip (stripLeadingEmojiLine (stripLeadingDayLine s.data)))

/-- Leftmost day-name occurrence anywhere in the text
(`re.search(r'(Monday|...)')` of `_parse_workout`). -/
def searchDay : List Char → Option String
  | [] => none
  | c :: t =>
    match dayAt (c :: t) with
    | some d => some d
    | none => searchDay t

/-- A workout dict as produced by `_parse_workout` (`distance` is
`str(distance) if distance else None`; the string rendering is display
glue, the truthiness filter — 0.0 becomes `None` — is kept). -/
structure MLWorkout where
  day : String
  workout_type : String
  description : String
  distance : Option ℚ
  deriving Repr, DecidableEq

/-- The `MLPlanParser._parse_workout`: `None` without a day name, else
day/type/description/distance. -/
def parse_workout (workout_text : String) : Option MLWorkout :=
  match searchDay workout_text.data with
  | none => none
  | some d =>
    let wt := classify_workout_type workout_text
    let dist := extract_distance workout_text wt
    some ⟨d, wt, extract_description workout_text,
      match dist with
      | some q => if q == 0 then none else some q
      | none => none⟩

/-- A week dict as produced by `_parse_week`. -/
structure MLWeek where
  week_number : ℕ
  total_distance : ℚ
  workouts : List MLWorkout
  deriving Repr, DecidableEq

/-- The `MLPlanParser._parse_week`. -/
def parse_week (week_text : String) (week_num : ℕ) : MLWeek :=
  ⟨week_num, extract_total_distance week_text,
    (split_into_workouts week_text).filterMap parse_workout⟩

/-- The plan dict as produced by `parse_plan` (`start_date` is
`datetime.now()`, passed in as `now`). -/
structure MLPlan where
  plan_title : String
  start_date : String
  duration_weeks : ℕ
  weekly_structure : List MLWeek
  workouts : List MLWorkout
  deriving Repr, DecidableEq

/-- The `MLPlanParser.parse_plan`: split into weeks, parse each
(1-based numbering), collect `weekly_structure` and the flattened
`workouts`; `duration_weeks` is the number of week segments. -/
def parse_plan (now : String) (plan_text : String) : MLPlan :=
  let weeks := split_into_weeks plan_text
  let weekData := (weeks.enumFrom 1).map (fun p => parse_week p.2 p.1)
  ⟨extract_plan_title plan_text, now, weeks.length, weekData,
    (weekData.map (fun wk => wk.workouts)).flatten⟩

/-! ## `PlanParserService.parse_plan_from_image` and the storage
collaborator

`PlanStorageService` (`app/services/plan_storage_service.py`) is
imported by the service but its file is not under `src/`; its
operations are modelled from the spec where marked. -/

/-- A stored parsed plan (`ParsedTrainingPlan` row owned by the storage
collaborator): id, owner, image hash, title, parse time, confidence and
the parsed structure. -/
structure StoredPlan where
  id : ℕ
  user_id : ℕ
  image_hash : ℕ
  plan_title : String
  parsed_at : String
  confidence_score : ℚ
  parsed_data : SPlan
  deriving Repr, DecidableEq

/-- The storage state: stored plans and the training table. -/
structure PDB where
  plans : List StoredPlan
  trainings : List Training
  deriving Repr, DecidableEq

/-- Modelled from the spec: `PlanStorageService._generate_image_hash`,
a deterministic content hash of the image bytes. -/
def generate_image_hash (bytes : List ℕ) : ℕ :=
  bytes.foldl (fun a b => a * 256 + b + 1) 7

/-- Modelled from the spec: `PlanStorageService.get_plan_by_image_hash`
— the prior plan keyed by `(user, image_hash)`. -/
def get_plan_by_image_hash (u : ℕ) (h : ℕ) (db : PDB) : Option StoredPlan :=
  db.plans.find? (fun p => p.user_id == u && p.image_hash == h)

/-- Modelled from the spec: `PlanStorageService.load_parsed_data`
returns the stored parsed structure. -/
def load_parsed_data (p : StoredPlan) : SPlan := p.parsed_data

/-- Whether a `(user, date)` slot is already occupied. -/
def coveredAt (u : ℕ) (d : ℤ) (db : List Training) : Bool :=
  db.any (fun t => t.user_id == u && t.date == d)

/-- The date (if any) at which a workout of week index `i` (0-based)
materializes: rest workouts and unparseable day names give none, per
the spec's skip semantics. -/
def effDate (sd : ℤ) (x : ℕ × SWorkout) : Option ℤ :=
  if isRestWorkout x.2 then none
  else (days_table.lookup (pyLower (x.2.day.getD ""))).map
    (fun off => sd + 7 * (x.1 : ℤ) + off)

/-- The row the storage materializer persists for one workout. -/
def mkMatTraining (u : ℕ) (d : ℤ) (pt : String) (w : SWorkout) : Training :=
  ⟨u, d, mappedWorkoutType (w.workout_type.getD "Easy Run"),
    w.workout_type.getD "Easy Run", w.description.getD "", w.distance,
    "coach_photo", pt⟩

/-- Modelled from the spec (§4.3 Plan Materializer), one workout step of
`PlanStorageService.create_training_workouts_from_plan`: skip rest
workouts and unparseable day names; before adding, check for an
existing record at `(user, workout_date)` and skip if found. -/
def matStep (u : ℕ) (sd : ℤ) (pt : String) (db : List Training)
    (x : ℕ × SWorkout) : List Training :=
  match effDate sd x with
  | none => db
  | some d => if coveredAt u d db then db else db ++ [mkMatTraining u d pt x.2]

/-- All workouts of a plan tagged with their week's 0-based index. -/
def planIndexedWorkouts (pl : SPlan) : List (ℕ × SWorkout) :=
  (pl.weekly_structure.enum.map (fun p => p.2.workouts.map (fun w => (p.1, w)))).flatten

/-- Modelled from the spec:
`PlanStorageService.create_training_workouts_from_plan` materializes a
stored plan's workouts into the training table (see `matStep`). -/
def create_training_workouts_from_plan (sp : StoredPlan) (u : ℕ) (sd : ℤ)
    (db : PDB) : PDB :=
  { db with trainings :=
      (planIndexedWorkouts sp.parsed_data).foldl (matStep u sd sp.plan_title) db.trainings }

/-- Modelled from the spec: `PlanStorageService.store_parsed_plan`
records the analysis under a fresh id with the image hash, parse time
and confidence 0.9. -/
def store_parsed_plan (u : ℕ) (analysis : SPlan) (h : ℕ) (now : String)
    (db : PDB) : StoredPlan :=
  ⟨db.plans.length, u, h, analysis.title.getD "Untitled Plan", now, 9/10, analysis⟩

/-- The response dict of `parse_plan_from_image`. -/
structure ParseResponse where
  id : ℕ
  title : String
  parsed_at : String
  duration_weeks : ℕ
  weekly_structure : List SWeek
  confidence_score : ℚ
  cached : Bool
  deriving Repr, DecidableEq

/-- The `PlanParserService.parse_plan_from_image`.  `analyze` is the vision
call `_analyze_plan_image` (an external model invocation), `now` the
wall-clock parse time, `sd` the materialization start date.  A stored
plan for `(user, hash(image))` short-circuits to the cached branch:
stored data is returned (`cached: true`) and materialized; otherwise
the vision result is stored, materialized and returned
(`cached: false`). -/
def parse_plan_from_image (analyze : List ℕ → SPlan) (now : String) (sd : ℤ)
    (image : List ℕ) (u : ℕ) (db : PDB) : ParseResponse × PDB :=
  let h := generate_image_hash image
  match get_plan_by_image_hash u h db with
  | some p =>
    let pd := load_parsed_data p
    (⟨p.id, p.plan_title, p.parsed_at, pd.weekly_structure.length,
       pd.weekly_structure, p.confidence_score, true⟩,
     create_training_workouts_from_plan p u sd db)
  | none =>
    let analysis := analyze image
    let sp := store_parsed_plan u analysis h now db
    let db1 : PDB := ⟨db.plans ++ [sp], db.trainings⟩
    (⟨sp.id, sp.plan_title, now, analysis.weekly_structure.length,
       analysis.weekly_structure, sp.confidence_score, false⟩,
     create_training_workouts_from_plan sp u sd db1)

/-! ### Idempotence of the dedup-checked materializer -/

/-- The `matStep` only ever appends. -/
theorem matStep_append_or_eq (u : ℕ) (sd : ℤ) (pt : String) (db : List Training)
    (x : ℕ × SWorkout) :
    matStep u sd pt db x = db ∨
      ∃ r, matStep u sd pt db x = db ++ [r] := by
  rw [matStep]
  cases effDate sd x with
  | none => left; rfl
  | some d =>
    by_cases hcov : coveredAt u d db
    · left; simp [hcov]
    · right; exact ⟨mkMatTraining u d pt x.2, by simp [hcov]⟩

/-- Occupied slots stay occupied across a `matStep`. -/
theorem coveredAt_matStep_mono (u : ℕ) (sd : ℤ) (pt : String) (db : List Training)
    (x : ℕ × SWorkout) (u' : ℕ) (d' : ℤ) (h : coveredAt u' d' db = true) :
    coveredAt u' d' (matStep u sd pt db x) = true := by
  rcases matStep_append_or_eq u sd pt db x with he | ⟨r, he⟩
  · rw [he]; exact h
  · rw [he, coveredAt]
    rw [coveredAt] at h
    simp only [List.any_append, h, Bool.true_or]

/-- Occupied slots stay occupied across the whole materialization
fold. -/
theorem coveredAt_fold_mono (u : ℕ) (sd : ℤ) (pt : String) (ws : List (ℕ × SWorkout))
    (db : List Training) (u' : ℕ) (d' : ℤ) (h : coveredAt u' d' db = true) :
    coveredAt u' d' (ws.foldl (matStep u sd pt) db) = true := by
  induction ws generalizing db with
  | nil => exact h
  | cons x ws' ih =>
    rw [List.foldl_cons]
    exact ih _ (coveredAt_matStep_mono u sd pt db x u' d' h)

/-- A single `matStep` covers its own workout's slot. -/
theorem coveredAt_matStep_self (u : ℕ) (sd : ℤ) (pt : String) (db : List Training)
    (x : ℕ × SWorkout) (d : ℤ) (hx : effDate sd x = some d) :
    coveredAt u d (matStep u sd pt db x) = true := by
  rw [matStep, hx]
  by_cases hcov : coveredAt u d db
  · simp [hcov]
  · simp only [hcov, Bool.false_eq_true, if_false]
    rw [coveredAt, List.any_append]
    simp [mkMatTraining]

/-- After the materialization fold, every workout's slot is covered. -/
theorem coveredAt_after_fold (u : ℕ) (sd : ℤ) (pt : String) (x : ℕ × SWorkout)
    (d : ℤ) (hd : effDate sd x = some d) :
    ∀ (ws : List (ℕ × SWorkout)) (db : List Training), x ∈ ws →
      coveredAt u d (ws.foldl (matStep u sd pt) db) = true := by
  intro ws
  induction ws with
  | nil => intro db hx; cases hx
  | cons y ws' ih =>
    intro db hx
    rw [List.foldl_cons]
    rcases List.mem_cons.mp hx with rfl | hmem
    · exact coveredAt_fold_mono u sd pt ws' _ u d
        (coveredAt_matStep_self u sd pt db x d hd)
    · exact ih _ hmem

/-- A `matStep` whose slot is already covered (or which skips) is a
no-op. -/
theorem matStep_noop (u : ℕ) (sd : ℤ) (pt : String) (db : List Training)
    (x : ℕ × SWorkout)
    (h : ∀ d, effDate sd x = some d → coveredAt u d db = true) :
    matStep u sd pt db x = db := by
  rw [matStep]
  cases hd : effDate sd x with
  | none => rfl
  | some d => simp [h d hd]

/-- A fold over slots that are all covered is a no-op. -/
theorem fold_noop (u : ℕ) (sd : ℤ) (pt : String) (ws : List (ℕ × SWorkout))
    (db : List Training)
    (h : ∀ x ∈ ws, ∀ d, effDate sd x = some d → coveredAt u d db = true) :
    ws.foldl (matStep u sd pt) db = db := by
  induction ws with
  | nil => rfl
  | cons x ws' ih =>
    rw [List.foldl_cons, matStep_noop u sd pt db x (h x (List.mem_cons_self x ws'))]
    exact ih (fun y hy => h y (List.mem_cons_of_mem x hy))

/-- Running the dedup-checked materialization a second time adds
nothing. -/
theorem matFold_idempotent (u : ℕ) (sd : ℤ) (pt : String) (ws : List (ℕ × SWorkout))
    (db : List Training) :
    ws.foldl (matStep u sd pt) (ws.foldl (matStep u sd pt) db)
      = ws.foldl (matStep u sd pt) db :=
  fold_noop u sd pt ws _ (fun x hx d hd => coveredAt_after_fold u sd pt x d hd ws db hx)

/-- The `create_training_workouts_from_plan` is idempotent and leaves the
stored plans untouched. -/
theorem create_workouts_idempotent (sp : StoredPlan) (u : ℕ) (sd : ℤ) (db : PDB) :
    create_training_workouts_from_plan sp u sd
        (create_training_workouts_from_plan sp u sd db)
      = create_training_workouts_from_plan sp u sd db := by
  simp only [create_training_workouts_from_plan]
  rw [matFold_idempotent]

/-! ## C7 -/

/-- C7: when the image hash is already stored for the user, the parse
returns the stored structure tagged `cached: true`, the result does not
depend on the vision model at all, and re-running materialization adds
no duplicate rows (the second pass leaves the storage state fixed). -/
theorem c7_cached_no_vision_no_duplicates :
    ∀ (analyze analyze' : List ℕ → SPlan) (now : String) (sd : ℤ) (image : List ℕ)
      (u : ℕ) (db : PDB) (p : StoredPlan),
      get_plan_by_image_hash u (generate_image_hash image) db = some p →
      (parse_plan_from_image analyze now sd image u db).1.cached = true ∧
      (parse_plan_from_image analyze now sd image u db).1.weekly_structure
        = (load_parsed_data p).weekly_structure ∧
      parse_plan_from_image analyze' now sd image u db
        = parse_plan_from_image analyze now sd image u db ∧
      (parse_plan_from_image analyze now sd image u
          (parse_plan_from_image analyze now sd image u db).2).2
        = (parse_plan_from_image analyze now sd image u db).2 := by
  intro analyze analyze' now sd image u db p h
  have hq : ∀ a : List ℕ → SPlan,
      parse_plan_from_image a now sd image u db
        = (⟨p.id, p.plan_title, p.parsed_at,
              (load_parsed_data p).weekly_structure.length,
              (load_parsed_data p).weekly_structure, p.confidence_score, true⟩,
           create_training_workouts_from_plan p u sd db) := by
    intro a
    rw [parse_plan_from_image]
    simp only [h]
  have hplans : (create_training_workouts_from_plan p u sd db).plans = db.plans := rfl
  have h2 : get_plan_by_image_hash u (generate_image_hash image)
      (create_training_workouts_from_plan p u sd db) = some p := by
    rw [get_plan_by_image_hash] at h ⊢
    rw [hplans]
    exact h
  refine ⟨by rw [hq analyze], by rw [hq analyze], by rw [hq analyze', hq analyze], ?_⟩
  rw [hq analyze]
  simp only
  rw [parse_plan_from_image]
  simp only [h2]
  rw [create_workouts_idempotent]

/-- Concrete stored plan and state for the C7 witness. -/
def csplan7 : StoredPlan :=
  ⟨0, 1, generate_image_hash [3, 1, 4], "March Plan", "2026-03-01", 1,
    ⟨some "March Plan", [⟨some 1, [⟨some "Monday", some "Easy Run", some "run", none⟩]⟩]⟩⟩

/-- Concrete storage state holding `csplan7`. -/
def cdb7 : PDB := ⟨[csplan7], []⟩

/-- Witness for C7 at the concrete state `cdb7`. -/
theorem c7_witness :
    get_plan_by_image_hash 1 (generate_image_hash [3, 1, 4]) cdb7 = some csplan7 ∧
    ((parse_plan_from_image (fun _ => ⟨none, []⟩) "t" 0 [3, 1, 4] 1 cdb7).1.cached = true ∧
      (parse_plan_from_image (fun _ => ⟨none, []⟩) "t" 0 [3, 1, 4] 1 cdb7).1.weekly_structure
        = (load_parsed_data csplan7).weekly_structure ∧
      parse_plan_from_image (fun _ => ⟨some "x", []⟩) "t" 0 [3, 1, 4] 1 cdb7
        = parse_plan_from_image (fun _ => ⟨none, []⟩) "t" 0 [3, 1, 4] 1 cdb7 ∧
      (parse_plan_from_image (fun _ => ⟨none, []⟩) "t" 0 [3, 1, 4] 1
          (parse_plan_from_image (fun _ => ⟨none, []⟩) "t" 0 [3, 1, 4] 1 cdb7).2).2
        = (parse_plan_from_image (fun _ => ⟨none, []⟩) "t" 0 [3, 1, 4] 1 cdb7).2) :=
  ⟨by decide,
    c7_cached_no_vision_no_duplicates (fun _ => ⟨none, []⟩) (fun _ => ⟨some "x", []⟩)
      "t" 0 [3, 1, 4] 1 cdb7 csplan7 (by decide)⟩

/-! ## C8 -/

/-- C8: `duration_weeks` equals the length of `weekly_structure` — in
the heuristic parser's output and in both the cached and
freshly-parsed responses of image parsing. -/
theorem c8_duration_eq_weeks :
    (∀ now t : String,
      (parse_plan now t).duration_weeks = (parse_plan now t).weekly_structure.length) ∧
    (∀ (analyze : List ℕ → SPlan) (now : String) (sd : ℤ) (image : List ℕ)
        (u : ℕ) (db : PDB),
      (parse_plan_from_image analyze now sd image u db).1.duration_weeks
        = (parse_plan_from_image analyze now sd image u db).1.weekly_structure.length) := by
  constructor
  · intro now t
    simp [parse_plan, List.length_map, List.enumFrom_length]
  · intro analyze now sd image u db
    rw [parse_plan_from_image]
    cases h : get_plan_by_image_hash u (generate_image_hash image) db with
    | some p => simp
    | none => simp

end AICoach
